import Mathlib

/-!
Verification of the time-series utilities of the repository
(`src/data_preprocessing.py`, `src/load_data.py`) against their
natural-language specification. The Python/pandas code is shallowly
embedded: timestamps are UTC instants modelled as integer epoch seconds,
a dataframe column is a list, pandas exceptions are `Except.error`.
-/

/-- Embedding of `pd.date_range(start=lo, end=hi, freq)` (with a positive
fixed frequency `freq`, in seconds): the instants `lo, lo+freq, lo+2*freq, ...`
up to and including `hi`; empty when `hi < lo`. -/
def date_range (lo hi freq : Int) : List Int :=
  if lo ≤ hi then
    (List.range (((hi - lo) / freq).toNat + 1)).map (fun i : Nat => lo + freq * (i : Int))
  else []

/-- Embedding of `Series.min()` on a nonempty column (`[]` is mapped to a
default that the main definition never uses: pandas returns `NaT` there). -/
def listMin : List Int → Int
  | [] => 0
  | t :: r => r.foldl min t

/-- Embedding of `Series.max()`, as for `listMin`. -/
def listMax : List Int → Int
  | [] => 0
  | t :: r => r.foldl max t

/-- Embedding of `contains_datetime_gaps` (src/data_preprocessing.py, lines
14-20) applied to an already-parsed timestamp column `col` (epoch seconds).
On an empty column `Series.min()`/`Series.max()` are `NaT` and
`pd.date_range` raises `ValueError: Neither start nor end can be NaT`;
this is the `.error` branch. Otherwise the full regular calendar from the
minimum to the maximum observed timestamp is built and the missing
timestamps are the calendar entries absent from the column
(`full_range.difference(df[col])`); the sort on line 15 does not affect
min, max or membership and is absorbed here. -/
def contains_datetime_gaps (col : List Int) (freq : Int) :
    Except String (Bool × List Int) :=
  match col with
  | [] => .error "ValueError: Neither start nor end can be NaT"
  | _ =>
    let missing := (date_range (listMin col) (listMax col) freq).filter
      (fun u => !decide (u ∈ col))
    .ok (!missing.isEmpty, missing)

/-! ## The merge pipeline of `load_raw_data_from_dir` (src/load_data.py) -/

/-- A dataframe cell: a raw string, a number, a parsed UTC timestamp
(epoch seconds), or the missing-value marker (`NaN`/`NaT`). -/
inductive Cell where
  | str (s : String)
  | num (n : Int)
  | ts (t : Int)
  | na
deriving DecidableEq

/-- A row of a normalized source table: the interval key
`(start_ts_utc, end_ts_utc)` (epoch seconds) plus the non-key payload `v`
(one measurement cell for prices/consumption, a list of per-production-type
cells for the pivoted production table). -/
structure KRow (α : Type) where
  s : Int
  e : Int
  v : α
deriving DecidableEq

/-- The interval key of a row. -/
def rowKey {α : Type} (r : KRow α) : Int × Int := (r.s, r.e)

/-- Embedding of `pd.merge(l, r, on=["start_ts_utc", "end_ts_utc"], how="left")`:
for each left row in order, all right rows with the same interval key (in
right order, fanning out on duplicates); when no right row matches, a single
row whose right payload is the missing-value filler `naV`. -/
def leftMerge {α β : Type} (l : List (KRow α)) (r : List (KRow β)) (naV : β) :
    List (KRow (α × β)) :=
  l.flatMap (fun a =>
    let ms := r.filter (fun b => decide (b.s = a.s ∧ b.e = a.e))
    if ms.isEmpty then [⟨a.s, a.e, (a.v, naV)⟩]
    else ms.map (fun b => ⟨a.s, a.e, (a.v, b.v)⟩))

/-- Embedding of lines 41-42 of src/load_data.py: the two left merges
price ⋈ consumption ⋈ production. `w` is the number of per-type generation
columns of the pivoted production table (the merge fills all of them with
the missing marker when an interval is absent from production). -/
def merged_data (prices cons : List (KRow Cell)) (prod : List (KRow (List Cell)))
    (w : Nat) : List (KRow ((Cell × Cell) × List Cell)) :=
  leftMerge (leftMerge prices cons Cell.na) prod (List.replicate w Cell.na)

/-- Embedding of the effect of `merged_data.replace(["n/e", "-"], np.nan)` on
one cell: a cell equal to either sentinel string becomes the missing-value
marker, every other cell is unchanged. -/
def replace_cell (c : Cell) : Cell :=
  if c = .str "n/e" ∨ c = .str "-" then .na else c

/-- Embedding of `load_raw_data_from_dir` (src/load_data.py, lines 41-44)
applied to already-normalized source tables: merge, then the single global
sentinel replacement pass. -/
def load_raw_data_from_dir (prices cons : List (KRow Cell))
    (prod : List (KRow (List Cell))) (w : Nat) :
    List (KRow ((Cell × Cell) × List Cell)) :=
  (merged_data prices cons prod w).map
    (fun r => ⟨r.s, r.e,
      ((replace_cell r.v.1.1, replace_cell r.v.1.2), r.v.2.map replace_cell)⟩)

/-- The per-cell relation asserted by the sentinel-replacement step: a cell
holding a sentinel string becomes the missing-value marker; any other cell is
unchanged (in particular sentinels never become zero and are never left as
the literal string). -/
def cellRel (a b : Cell) : Prop :=
  ((a = .str "n/e" ∨ a = .str "-") ∧ b = .na) ∨
  (¬(a = .str "n/e" ∨ a = .str "-") ∧ b = a)

/-! ## Interval-string parsing and formatting (src/load_data.py, lines 62-66,
78-82, 105-109)

The code splits the `"MTU (UTC)"` column on the separator `" - "` and parses
each side with `pd.to_datetime(..., format="%d/%m/%Y %H:%M:%S", utc=True)`
(prices, production) or `format="%d/%m/%Y %H:%M"` (consumption). The parser
below mirrors the strptime field patterns used by pandas (which follow
CPython's `_strptime`): `%d`, `%m`, `%H`, `%M`, `%S` match one or two digits
(zero padding is not required), `%Y` matches exactly four digits; the parsed
fields must form a valid calendar date, and the resulting instant must fit in
pandas' 64-bit-nanosecond `Timestamp` range (whole seconds in
`[-9223372036, 9223372036]` of the epoch). CPython's additional tolerances
(a space-padded day, leap seconds 60-61, runs of whitespace for a literal
space) are not exercised by this repository's formats and are left out. -/

structure PDateTime where
  year : Nat
  month : Nat
  day : Nat
  hour : Nat
  minute : Nat
  second : Nat
deriving DecidableEq

/-- The Gregorian leap-year rule. -/
def isLeapYear (y : Nat) : Bool :=
  decide (y % 4 = 0 ∧ (y % 100 ≠ 0 ∨ y % 400 = 0))

/-- Number of days of month `m` of year `y`. -/
def daysInMonth (y m : Nat) : Nat :=
  if m = 2 then (if isLeapYear y then 29 else 28)
  else if m = 4 ∨ m = 6 ∨ m = 9 ∨ m = 11 then 30
  else 31

/-- Days since 1970-01-01 of the civil date `y-m-d` (Gregorian calendar,
valid for `y ≥ 1`). -/
def daysFromCivil (y m d : Nat) : Int :=
  let yAdj := if m ≤ 2 then y - 1 else y
  let era := yAdj / 400
  let yoe := yAdj - era * 400
  let mp := if 2 < m then m - 3 else m + 9
  let doy := (153 * mp + 2) / 5 + d - 1
  let doe := yoe * 365 + yoe / 4 - yoe / 100 + doy
  (era * 146097 + doe : Int) - 719468

/-- Epoch seconds (UTC) of a datetime. -/
def toEpochSec (dt : PDateTime) : Int :=
  86400 * daysFromCivil dt.year dt.month dt.day +
    (3600 * dt.hour + 60 * dt.minute + dt.second : Nat)

/-- Whether an instant (in whole epoch seconds) fits in pandas' int64
nanosecond `Timestamp` range. -/
def epochInBounds (sec : Int) : Bool :=
  decide (-9223372036 ≤ sec ∧ sec ≤ 9223372036)

/-- All field and calendar constraints a parsed timestamp must satisfy
(pandas additionally rejects instants outside the `Timestamp` range with
`OutOfBoundsDatetime`). -/
def valid_timestamp (dt : PDateTime) : Bool :=
  decide (1 ≤ dt.year ∧ dt.year ≤ 9999 ∧ 1 ≤ dt.month ∧ dt.month ≤ 12 ∧
    1 ≤ dt.day ∧ dt.day ≤ daysInMonth dt.year dt.month ∧
    dt.hour ≤ 23 ∧ dt.minute ≤ 59 ∧ dt.second ≤ 59) &&
  epochInBounds (toEpochSec dt)

/-- Takes up to `n` leading decimal digits (greedily, as the strptime digit
patterns do in a format whose literals are never digits). -/
def takeDigits : Nat → List Char → List Char × List Char
  | 0, cs => ([], cs)
  | _ + 1, [] => ([], [])
  | n + 1, c :: cs =>
    if c.isDigit then
      let p := takeDigits n cs
      (c :: p.1, p.2)
    else ([], c :: cs)

/-- Value of a decimal digit character. -/
def digitVal (c : Char) : Nat := c.toNat - 48

/-- Value of a list of decimal digit characters. -/
def digitsToNat (ds : List Char) : Nat :=
  ds.foldl (fun a c => 10 * a + digitVal c) 0

/-- Reads between `minLen` and `maxLen` digits whose value lies in
`[lo, hi]`; mirrors one strptime numeric field. -/
def readNum (minLen maxLen lo hi : Nat) (cs : List Char) :
    Option (Nat × List Char) :=
  let p := takeDigits maxLen cs
  if p.1.length < minLen then none
  else if lo ≤ digitsToNat p.1 ∧ digitsToNat p.1 ≤ hi then
    some (digitsToNat p.1, p.2)
  else none

/-- Consumes one expected literal character. -/
def expectChar (c : Char) : List Char → Option (List Char)
  | [] => none
  | x :: xs => if x = c then some xs else none

/-- Field-level strptime of `"%d/%m/%Y %H:%M:%S"` (`withSeconds = true`) or
`"%d/%m/%Y %H:%M"` (`withSeconds = false`), requiring the whole string to be
consumed (pandas parses with `exact=True` when a format is given). -/
def parse_timestamp_fields (withSeconds : Bool) (cs : List Char) :
    Option PDateTime :=
  match readNum 1 2 1 31 cs with
  | none => none
  | some (d, cs1) =>
    match expectChar '/' cs1 with
    | none => none
    | some cs2 =>
      match readNum 1 2 1 12 cs2 with
      | none => none
      | some (m, cs3) =>
        match expectChar '/' cs3 with
        | none => none
        | some cs4 =>
          match readNum 4 4 1 9999 cs4 with
          | none => none
          | some (y, cs5) =>
            match expectChar ' ' cs5 with
            | none => none
            | some cs6 =>
              match readNum 1 2 0 23 cs6 with
              | none => none
              | some (h, cs7) =>
                match expectChar ':' cs7 with
                | none => none
                | some cs8 =>
                  match readNum 1 2 0 59 cs8 with
                  | none => none
                  | some (mi, cs9) =>
                    if withSeconds then
                      match expectChar ':' cs9 with
                      | none => none
                      | some cs10 =>
                        match readNum 1 2 0 59 cs10 with
                        | none => none
                        | some (sec, cs11) =>
                          if cs11.isEmpty then some ⟨y, m, d, h, mi, sec⟩
                          else none
                    else
                      if cs9.isEmpty then some ⟨y, m, d, h, mi, 0⟩ else none

/-- Embedding of `pd.to_datetime(s, format=..., utc=True)` for the two
repository formats: strptime fields plus calendar and `Timestamp`-range
validity. -/
def parse_timestamp_core (withSeconds : Bool) (cs : List Char) :
    Option PDateTime :=
  match parse_timestamp_fields withSeconds cs with
  | none => none
  | some dt => if valid_timestamp dt then some dt else none

/-- String-level timestamp parsing. -/
def parse_timestamp (withSeconds : Bool) (s : String) : Option PDateTime :=
  parse_timestamp_core withSeconds s.data

/-- The decimal digit character of `n % 10`. -/
def digitChar (n : Nat) : Char :=
  match n % 10 with
  | 0 => '0' | 1 => '1' | 2 => '2' | 3 => '3' | 4 => '4'
  | 5 => '5' | 6 => '6' | 7 => '7' | 8 => '8' | _ => '9'

/-- Two-digit zero-padded decimal rendering (strftime `%d`, `%m`, `%H`,
`%M`, `%S`). -/
def pad2Chars (n : Nat) : List Char := [digitChar (n / 10), digitChar n]

/-- Four-digit zero-padded decimal rendering (strftime `%Y` for the years
reachable by a pandas `Timestamp`). -/
def pad4Chars (n : Nat) : List Char :=
  [digitChar (n / 1000), digitChar (n / 100), digitChar (n / 10), digitChar n]

/-- Character-level strftime of the two repository formats. -/
def format_timestamp_chars (withSeconds : Bool) (dt : PDateTime) : List Char :=
  pad2Chars dt.day ++ '/' :: pad2Chars dt.month ++ '/' :: pad4Chars dt.year ++
    ' ' :: pad2Chars dt.hour ++ ':' :: pad2Chars dt.minute ++
    (if withSeconds then ':' :: pad2Chars dt.second else [])

/-- String-level strftime. -/
def format_timestamp (withSeconds : Bool) (dt : PDateTime) : String :=
  String.mk (format_timestamp_chars withSeconds dt)

/-- The interval separator `" - "` of the `"MTU (UTC)"` column. -/
def sepChars : List Char := [' ', '-', ' ']

/-- Embedding of Python's `str.split(" - ")`: splits at every
(left-to-right, non-overlapping) occurrence of the separator. The `fuel`
argument only forces structural termination; it is always called with
`fuel = cs.length`, which the recursion never exhausts. -/
def splitOnSepFuel : Nat → List Char → List Char → List (List Char)
  | _, [], acc => [acc.reverse]
  | 0, c :: cs, acc => [acc.reverse ++ c :: cs]
  | fuel + 1, c :: rest, acc =>
    if c = ' ' ∧ rest.take 2 = ['-', ' '] then
      acc.reverse :: splitOnSepFuel fuel (rest.drop 2) []
    else splitOnSepFuel fuel rest (c :: acc)

/-- Splitting a string on `" - "`. -/
def split_interval (s : String) : List (List Char) :=
  splitOnSepFuel s.data.length s.data []

/-- Embedding of parsing one `"<start> - <end>"` interval string in
isolation: exactly two separator-delimited parts, both parsed with the given
format. -/
def parse_interval (withSeconds : Bool) (s : String) :
    Option (PDateTime × PDateTime) :=
  match split_interval s with
  | [a, b] =>
    match parse_timestamp_core withSeconds a, parse_timestamp_core withSeconds b with
    | some x, some y => some (x, y)
    | _, _ => none
  | _ => none

/-- Formatting an interval back into the `"<start> - <end>"` shape. -/
def format_interval (withSeconds : Bool) (p : PDateTime × PDateTime) : String :=
  String.mk (format_timestamp_chars withSeconds p.1 ++ sepChars ++
    format_timestamp_chars withSeconds p.2)

/-- A long-format production row after interval parsing and renaming:
interval key, production type, generation value. -/
structure ProdRow where
  s : Int
  e : Int
  ptype : String
  value : Cell
deriving DecidableEq

/-- The hard-coded renewable allow-list of `load_raw_production`. -/
def renewable_types : List String := ["Solar", "Wind Offshore", "Wind Onshore"]

/-- The pivot key `(start_ts_utc, end_ts_utc, production_type)`. -/
def prodKey (r : ProdRow) : Int × Int × String := (r.s, r.e, r.ptype)

/-- Embedding of `load_raw_production` (src/load_data.py, lines 112-120)
applied to already-parsed long-format rows: filter to the renewable
allow-list, then `DataFrame.pivot(index=[start, end], columns=type,
values=value)`, which raises `ValueError: Index contains duplicate entries,
cannot reshape` as soon as one `(start, end, production_type)` key occurs
twice, and otherwise emits one wide row per distinct interval holding the
unique value of each type present at that interval. The sort on line 118
permutes rows only and is absorbed by the pivot. -/
def load_raw_production (rows : List ProdRow) :
    Except String (List ((Int × Int) × List (String × Cell))) :=
  let filtered := rows.filter (fun r => renewable_types.contains r.ptype)
  if (filtered.map prodKey).Nodup then
    Except.ok (((filtered.map (fun r => (r.s, r.e))).dedup).map
      (fun k => (k, (filtered.filter (fun r => decide ((r.s, r.e) = k))).map
        (fun r => (r.ptype, r.value)))))
  else Except.error "ValueError: Index contains duplicate entries, cannot reshape"

/-! ## Directory reading (src/load_data.py, lines 9-27) -/

/-- Embedding of `read_from_dir_as_df`: `dirExists` is the value of
`os.path.isdir(dir_path)`, `listing` the directory entries, and
`readCsv`/`readXlsx` stand for `pd.read_csv`/`pd.read_excel` on one file.
Only the files whose names end with `file_format` are read (`str.endswith`
is modelled as a character-level suffix test); the per-file
`match` raises on an unsupported format only when it is reached, i.e. when
at least one matching file exists; `pd.concat` of an empty list raises
`ValueError: No objects to concatenate`. -/
def read_from_dir_as_df (dirExists : Bool) (listing : List String)
    (file_format : String) (readCsv readXlsx : String → List (List Cell)) :
    Except String (List (List Cell)) :=
  if !dirExists then Except.error "ValueError: Directory doesn't exist."
  else
    match (listing.filter (fun fn => file_format.data.isSuffixOf fn.data)).mapM (fun file =>
      if file_format = ".csv" then Except.ok (readCsv file)
      else if file_format = ".xlsx" then Except.ok (readXlsx file)
      else (Except.error ("ValueError: Unsupported file format: " ++ file_format) :
        Except String (List (List Cell)))) with
    | Except.error e => Except.error e
    | Except.ok dfs =>
      if dfs.isEmpty then Except.error "ValueError: No objects to concatenate"
      else Except.ok dfs.flatten

/-! ## Caller-visible state of `contains_datetime_gaps`
(src/data_preprocessing.py, lines 14-15)

Line 14, `df[datetime_col_name] = pd.to_datetime(df[datetime_col_name],
utc=True)`, assigns the parsed column back into the caller's frame in place;
line 15 rebinds the local name `df` to a sorted copy, which the caller never
sees. The caller's table is modelled as rows of (timestamp cell, other
fields). `pd.to_datetime` without an explicit format is modelled for
already-parsed instants, missing values, numeric cells (interpreted on the
epoch) and canonically rendered ISO strings `"YYYY-MM-DD HH:MM:SS"`; other
spellings accepted by pandas' flexible parser are not needed by the claims. -/

/-- ISO `"YYYY-MM-DD HH:MM:SS"` parsing, with the same field, calendar and
range validity as the strptime formats. -/
def parse_iso_chars (cs : List Char) : Option PDateTime :=
  match readNum 4 4 1 9999 cs with
  | none => none
  | some (y, cs1) =>
    match expectChar '-' cs1 with
    | none => none
    | some cs2 =>
      match readNum 1 2 1 12 cs2 with
      | none => none
      | some (m, cs3) =>
        match expectChar '-' cs3 with
        | none => none
        | some cs4 =>
          match readNum 1 2 1 31 cs4 with
          | none => none
          | some (d, cs5) =>
            match expectChar ' ' cs5 with
            | none => none
            | some cs6 =>
              match readNum 1 2 0 23 cs6 with
              | none => none
              | some (h, cs7) =>
                match expectChar ':' cs7 with
                | none => none
                | some cs8 =>
                  match readNum 1 2 0 59 cs8 with
                  | none => none
                  | some (mi, cs9) =>
                    match expectChar ':' cs9 with
                    | none => none
                    | some cs10 =>
                      match readNum 1 2 0 59 cs10 with
                      | none => none
                      | some (sec, cs11) =>
                        if cs11.isEmpty then
                          if valid_timestamp ⟨y, m, d, h, mi, sec⟩ then
                            some ⟨y, m, d, h, mi, sec⟩
                          else none
                        else none

/-- One cell under `pd.to_datetime(..., utc=True)`: instants and missing
values pass through, numbers are epoch instants, strings must parse. -/
def parse_datetime_flexible (c : Cell) : Option Cell :=
  match c with
  | Cell.ts t => some (Cell.ts t)
  | Cell.na => some Cell.na
  | Cell.num n => some (Cell.ts n)
  | Cell.str s => (parse_iso_chars s.data).map (fun dt => Cell.ts (toEpochSec dt))

/-- Line 14 applied to the whole column, keeping every non-timestamp field
and the row order; fails (raises) as soon as one cell fails to parse. -/
def parse_column {β : Type} : List (Cell × β) → Option (List (Cell × β))
  | [] => some []
  | rc :: rest =>
    match parse_datetime_flexible rc.1 with
    | none => none
    | some c =>
      match parse_column rest with
      | none => none
      | some rest2 => some ((c, rc.2) :: rest2)

/-- Embedding of `contains_datetime_gaps` at the dataframe level, returning
the call's result together with the caller-visible final table. On a parse
failure the assignment on line 14 never completes, so the caller's table is
unchanged; on success the caller's timestamp column holds the parsed
instants (rows in original order) and the gap computation runs on the
instants (`NaT` cells are skipped by `min`/`max` and never equal a calendar
entry, hence the `filterMap`). -/
def contains_datetime_gaps_df {β : Type} (df : List (Cell × β)) (freq : Int) :
    Except String (Bool × List Int) × List (Cell × β) :=
  match parse_column df with
  | none => (Except.error "ParseError: could not parse timestamp column", df)
  | some df2 =>
    (contains_datetime_gaps (df2.filterMap (fun rc =>
      match rc.1 with
      | Cell.ts t => some t
      | _ => none)) freq, df2)

/-! ## Theorems -/

theorem foldl_min_mem : ∀ (r : List Int) (t : Int), r.foldl min t ∈ t :: r := by
  intro r
  induction r with
  | nil => intro t; simp
  | cons a r ih =>
    intro t
    simp only [List.foldl_cons]
    have h := ih (min t a)
    rcases List.mem_cons.1 h with h1 | h1
    · rw [h1]
      rcases min_choice t a with hm | hm <;> rw [hm] <;> simp
    · simp [List.mem_cons, h1]

theorem foldl_min_le : ∀ (r : List Int) (t x : Int), x ∈ t :: r → r.foldl min t ≤ x := by
  intro r
  induction r with
  | nil =>
    intro t x hx
    simp only [List.mem_singleton] at hx
    simp [hx]
  | cons a r ih =>
    intro t x hx
    simp only [List.foldl_cons]
    rcases List.mem_cons.1 hx with h | hx2
    · exact le_trans (ih (min t a) (min t a) (List.mem_cons_self _ _)) (by simp [h, min_le_left])
    · rcases List.mem_cons.1 hx2 with h | h
      · exact le_trans (ih (min t a) (min t a) (List.mem_cons_self _ _)) (by simp [h, min_le_right])
      · exact ih (min t a) x (List.mem_cons_of_mem _ h)

theorem foldl_max_mem : ∀ (r : List Int) (t : Int), r.foldl max t ∈ t :: r := by
  intro r
  induction r with
  | nil => intro t; simp
  | cons a r ih =>
    intro t
    simp only [List.foldl_cons]
    have h := ih (max t a)
    rcases List.mem_cons.1 h with h1 | h1
    · rw [h1]
      rcases max_choice t a with hm | hm <;> rw [hm] <;> simp
    · simp [List.mem_cons, h1]

theorem foldl_max_le : ∀ (r : List Int) (t x : Int), x ∈ t :: r → x ≤ r.foldl max t := by
  intro r
  induction r with
  | nil =>
    intro t x hx
    simp only [List.mem_singleton] at hx
    simp [hx]
  | cons a r ih =>
    intro t x hx
    simp only [List.foldl_cons]
    rcases List.mem_cons.1 hx with h | hx2
    · exact le_trans (by simp [h, le_max_left]) (ih (max t a) (max t a) (List.mem_cons_self _ _))
    · rcases List.mem_cons.1 hx2 with h | h
      · exact le_trans (by simp [h, le_max_right]) (ih (max t a) (max t a) (List.mem_cons_self _ _))
      · exact ih (max t a) x (List.mem_cons_of_mem _ h)

theorem listMin_mem {col : List Int} (h : col ≠ []) : listMin col ∈ col := by
  cases col with
  | nil => exact absurd rfl h
  | cons t r => exact foldl_min_mem r t

theorem listMin_le {col : List Int} {x : Int} (hx : x ∈ col) : listMin col ≤ x := by
  cases col with
  | nil => cases hx
  | cons t r => exact foldl_min_le r t x hx

theorem listMax_mem {col : List Int} (h : col ≠ []) : listMax col ∈ col := by
  cases col with
  | nil => exact absurd rfl h
  | cons t r => exact foldl_max_mem r t

theorem le_listMax {col : List Int} {x : Int} (hx : x ∈ col) : x ≤ listMax col := by
  cases col with
  | nil => cases hx
  | cons t r => exact foldl_max_le r t x hx

theorem mem_date_range {lo hi freq t : Int} (hf : 0 < freq) (hlohi : lo ≤ hi) :
    t ∈ date_range lo hi freq ↔ (∃ k : ℕ, t = lo + freq * k) ∧ t ≤ hi := by
  have hd : ((((hi - lo) / freq).toNat : Int)) = (hi - lo) / freq :=
    Int.toNat_of_nonneg (Int.ediv_nonneg (by omega) (le_of_lt hf))
  constructor
  · intro ht
    simp only [date_range, if_pos hlohi, List.mem_map, List.mem_range] at ht
    obtain ⟨i, hi2, rfl⟩ := ht
    refine ⟨⟨i, rfl⟩, ?_⟩
    have h1 : (i : Int) ≤ (hi - lo) / freq := by
      rw [← hd]; exact_mod_cast Nat.lt_succ_iff.1 hi2
    have h2 := (Int.le_ediv_iff_mul_le hf).1 h1
    have h3 : freq * (i : Int) ≤ hi - lo := by rw [mul_comm]; exact h2
    linarith
  · rintro ⟨⟨k, rfl⟩, hle⟩
    simp only [date_range, if_pos hlohi, List.mem_map, List.mem_range]
    refine ⟨k, ?_, rfl⟩
    have h1 : (k : Int) * freq ≤ hi - lo := by rw [mul_comm]; linarith
    have h2 := (Int.le_ediv_iff_mul_le hf).2 h1
    rw [← hd] at h2
    exact Nat.lt_succ_iff.2 (by exact_mod_cast h2)

theorem date_range_sorted {lo hi freq : Int} (hf : 0 < freq) :
    (date_range lo hi freq).Sorted (· < ·) := by
  unfold date_range
  split
  · refine List.pairwise_map.2 ?_
    refine (List.pairwise_lt_range _).imp ?_
    intro i j hij
    have : freq * i < freq * j := by
      apply Int.mul_lt_mul_of_pos_left _ hf
      exact_mod_cast hij
    omega
  · exact List.sorted_nil

/-- Counterexample to C1 as stated: its scope includes the empty table
(whose timestamp column vacuously parses), but on zero rows the column
minimum is `NaT` and `pd.date_range` raises, so `contains_datetime_gaps`
does not return a boolean at all. -/
theorem contains_datetime_gaps_empty_not_ok :
    (contains_datetime_gaps ([] : List Int) 60).isOk = false := rfl

/-- C1 (amended): for every nonempty table whose timestamp column parses to
UTC instants, and every positive frequency, gap detection returns a pair of a
boolean and a list of missing timestamps such that: the boolean is true iff
some timestamp of the regular calendar (all instants `min + freq * k`, `k ∈ ℕ`,
up to and including `max`) is absent from the observed column; the returned
list is strictly sorted and holds exactly those absent calendar timestamps;
`listMin`/`listMax` are genuinely the minimum and maximum observed timestamps;
and on the spec's example `[00:00, 01:00, 03:00]` at 1-hour frequency the
result is `(true, [02:00])` (in epoch seconds: `[0, 3600, 10800] ↦ [7200]`). -/
theorem contains_datetime_gaps_characterization (col : List Int) (freq : Int)
    (hf : 0 < freq) (hne : col ≠ []) :
    (∃ (b : Bool) (missing : List Int),
      contains_datetime_gaps col freq = .ok (b, missing) ∧
      (b = true ↔ ∃ t : Int, (∃ k : ℕ, t = listMin col + freq * k) ∧
        t ≤ listMax col ∧ t ∉ col) ∧
      missing.Sorted (· < ·) ∧
      (∀ t : Int, t ∈ missing ↔ ((∃ k : ℕ, t = listMin col + freq * k) ∧
        t ≤ listMax col ∧ t ∉ col)) ∧
      listMin col ∈ col ∧ (∀ x ∈ col, listMin col ≤ x) ∧
      listMax col ∈ col ∧ (∀ x ∈ col, x ≤ listMax col)) ∧
    contains_datetime_gaps [0, 3600, 10800] 3600 = .ok (true, [7200]) := by
  constructor
  · have hlohi : listMin col ≤ listMax col := listMin_le (listMax_mem hne)
    have hchar : ∀ t : Int,
        t ∈ (date_range (listMin col) (listMax col) freq).filter
          (fun u => !decide (u ∈ col)) ↔
        ((∃ k : ℕ, t = listMin col + freq * k) ∧ t ≤ listMax col ∧ t ∉ col) := by
      intro t
      rw [List.mem_filter, mem_date_range hf hlohi]
      simp [and_assoc]
    obtain ⟨t, r⟩ := List.exists_cons_of_ne_nil hne
    obtain ⟨rest, rfl⟩ := r
    refine ⟨_, _, rfl, ?_, ?_, hchar, listMin_mem hne, fun x hx => listMin_le hx,
      listMax_mem hne, fun x hx => le_listMax hx⟩
    · rw [Bool.not_eq_true', List.isEmpty_eq_false_iff_exists_mem]
      constructor
      · rintro ⟨u, hu⟩
        exact ⟨u, (hchar u).1 hu⟩
      · rintro ⟨u, hu⟩
        exact ⟨u, (hchar u).2 hu⟩
    · exact (date_range_sorted hf).filter _
  · rfl

/-- Witness: the characterization applied to the spec's concrete example. -/
theorem contains_datetime_gaps_characterization_witness :
    (∃ (b : Bool) (missing : List Int),
      contains_datetime_gaps [0, 3600, 10800] 3600 = .ok (b, missing) ∧
      (b = true ↔ ∃ t : Int, (∃ k : ℕ, t = listMin [0, 3600, 10800] + 3600 * k) ∧
        t ≤ listMax [0, 3600, 10800] ∧ t ∉ [0, 3600, 10800]) ∧
      missing.Sorted (· < ·) ∧
      (∀ t : Int, t ∈ missing ↔ ((∃ k : ℕ, t = listMin [0, 3600, 10800] + 3600 * k) ∧
        t ≤ listMax [0, 3600, 10800] ∧ t ∉ [0, 3600, 10800])) ∧
      listMin [0, 3600, 10800] ∈ [0, 3600, 10800] ∧
      (∀ x ∈ [0, 3600, 10800], listMin [0, 3600, 10800] ≤ x) ∧
      listMax [0, 3600, 10800] ∈ [0, 3600, 10800] ∧
      (∀ x ∈ [0, 3600, 10800], x ≤ listMax [0, 3600, 10800])) ∧
    contains_datetime_gaps [0, 3600, 10800] 3600 = .ok (true, [7200]) :=
  contains_datetime_gaps_characterization [0, 3600, 10800] 3600 (by decide) (by decide)

/-- Counterexample to C2 as stated: on a table with zero rows the code does
not return "no gaps"; `Series.min()` is `NaT` and `pd.date_range` raises
`ValueError`, so the call fails. -/
theorem contains_datetime_gaps_nil_error :
    contains_datetime_gaps ([] : List Int) 3600 =
      .error "ValueError: Neither start nor end can be NaT" := rfl

/-- C2 (amended): for every nonempty table all of whose (parsed) timestamps
are equal -- i.e. at most one distinct timestamp -- gap detection returns no
gaps: the boolean is false and the missing list is empty. A zero-row table
instead raises a `ValueError` (see `contains_datetime_gaps_nil_error`). -/
theorem contains_datetime_gaps_single_timestamp (col : List Int) (freq : Int)
    (hf : 0 < freq) (hne : col ≠ [])
    (hone : ∀ a ∈ col, ∀ b ∈ col, a = b) :
    contains_datetime_gaps col freq = .ok (false, []) := by
  have hminmax : listMin col = listMax col :=
    hone _ (listMin_mem hne) _ (listMax_mem hne)
  have hrange : date_range (listMin col) (listMax col) freq = [listMin col] := by
    rw [← hminmax]
    unfold date_range
    rw [if_pos le_rfl]
    have hz : ((listMin col - listMin col) / freq).toNat + 1 = 1 := by
      rw [sub_self, Int.zero_ediv]
      rfl
    rw [hz, show List.range 1 = [0] from rfl]
    simp
  have hfilter : (date_range (listMin col) (listMax col) freq).filter
      (fun u => !decide (u ∈ col)) = [] := by
    rw [hrange]
    simp [listMin_mem hne]
  obtain ⟨t, r, rfl⟩ := List.exists_cons_of_ne_nil hne
  simp only [contains_datetime_gaps]
  rw [hfilter]
  rfl

/-- Witness: a two-row table with a single distinct timestamp yields no gaps. -/
theorem contains_datetime_gaps_single_timestamp_witness :
    contains_datetime_gaps [25, 25] 3600 = .ok (false, []) :=
  contains_datetime_gaps_single_timestamp [25, 25] 3600 (by decide) (by decide)
    (by decide)

/-- C3: gap detection only depends on the set of timestamps in the column:
two tables with the same set of (parsed) timestamps -- regardless of row
order and of duplicate multiplicity -- produce identical results at the same
frequency (identical boolean, identical missing list; and on two empty
tables, the identical error). -/
theorem contains_datetime_gaps_set_invariant (col₁ col₂ : List Int) (freq : Int)
    (h : col₁.toFinset = col₂.toFinset) :
    contains_datetime_gaps col₁ freq = contains_datetime_gaps col₂ freq := by
  have hmem : ∀ x : Int, x ∈ col₁ ↔ x ∈ col₂ := by
    intro x
    rw [← List.mem_toFinset, h, List.mem_toFinset]
  cases h₁ : col₁ with
  | nil =>
    cases h₂ : col₂ with
    | nil => rfl
    | cons b s =>
      exfalso
      have := (hmem b).2 (by rw [h₂]; exact List.mem_cons_self _ _)
      rw [h₁] at this
      cases this
  | cons a r =>
    cases h₂ : col₂ with
    | nil =>
      exfalso
      have := (hmem a).1 (by rw [h₁]; exact List.mem_cons_self _ _)
      rw [h₂] at this
      cases this
    | cons b s =>
      rw [← h₁, ← h₂]
      have hne₁ : col₁ ≠ [] := by rw [h₁]; exact List.cons_ne_nil a r
      have hne₂ : col₂ ≠ [] := by rw [h₂]; exact List.cons_ne_nil b s
      have hmin : listMin col₁ = listMin col₂ :=
        le_antisymm (listMin_le ((hmem _).2 (listMin_mem hne₂)))
          (listMin_le ((hmem _).1 (listMin_mem hne₁)))
      have hmax : listMax col₁ = listMax col₂ :=
        le_antisymm (le_listMax ((hmem _).1 (listMax_mem hne₁)))
          (le_listMax ((hmem _).2 (listMax_mem hne₂)))
      have hfilter :
          (date_range (listMin col₁) (listMax col₁) freq).filter
            (fun u => !decide (u ∈ col₁)) =
          (date_range (listMin col₂) (listMax col₂) freq).filter
            (fun u => !decide (u ∈ col₂)) := by
        rw [hmin, hmax]
        apply List.filter_congr
        intro u _
        simp [hmem u]
      rw [h₁, h₂] at hfilter ⊢
      simp only [contains_datetime_gaps]
      rw [hfilter]

/-- Witness: a reordered, duplicated variant of a column produces the same
result. -/
theorem contains_datetime_gaps_set_invariant_witness :
    contains_datetime_gaps [0, 3600, 10800] 3600 =
      contains_datetime_gaps [10800, 0, 3600, 0] 3600 :=
  contains_datetime_gaps_set_invariant [0, 3600, 10800] [10800, 0, 3600, 0]
    3600 (by decide)

theorem nodup_const_length_le_one {α : Type} {l : List α} {c : α}
    (hn : l.Nodup) (hc : ∀ x ∈ l, x = c) : l.length ≤ 1 := by
  cases l with
  | nil => simp
  | cons a l2 =>
    cases l2 with
    | nil => simp
    | cons b l3 =>
      exfalso
      have hab : a ≠ b := (List.nodup_cons.1 hn).1 ∘ (fun h => h ▸ List.mem_cons_self _ _)
      exact hab ((hc a (List.mem_cons_self _ _)).trans
        (hc b (List.mem_cons_of_mem _ (List.mem_cons_self _ _))).symm)

theorem filter_key_length_le_one {β : Type} (r : List (KRow β)) (s e : Int)
    (hr : (r.map rowKey).Nodup) :
    (r.filter (fun b => decide (b.s = s ∧ b.e = e))).length ≤ 1 := by
  have hsub : List.Sublist
      ((r.filter (fun b => decide (b.s = s ∧ b.e = e))).map rowKey)
      (r.map rowKey) :=
    (List.filter_sublist r).map rowKey
  have hnd : ((r.filter (fun b => decide (b.s = s ∧ b.e = e))).map rowKey).Nodup :=
    List.Nodup.sublist hsub hr
  have hconst : ∀ x ∈ (r.filter (fun b => decide (b.s = s ∧ b.e = e))).map rowKey,
      x = (s, e) := by
    intro x hx
    obtain ⟨b, hb, rfl⟩ := List.mem_map.1 hx
    have hbp := (List.mem_filter.1 hb).2
    simp only [decide_eq_true_eq] at hbp
    simp [rowKey, hbp.1, hbp.2]
  have hlen := nodup_const_length_le_one hnd hconst
  simpa using hlen

theorem count_key_bridge (k : Int × Int) (l : List (Int × Int)) :
    l.count k = @List.count _ instBEqOfDecidableEq k l := by
  induction l with
  | nil => rfl
  | cons b l ih =>
    simp only [List.count_cons, ih, beq_iff_eq, instBEqOfDecidableEq,
      decide_eq_true_eq]

theorem leftMerge_keys {α β : Type} (l : List (KRow α)) (r : List (KRow β)) (naV : β)
    (hr : (r.map rowKey).Nodup) :
    (leftMerge l r naV).map rowKey = l.map rowKey := by
  induction l with
  | nil => rfl
  | cons a l ih =>
    have hblock :
        ((if (r.filter (fun b => decide (b.s = a.s ∧ b.e = a.e))).isEmpty
          then [(⟨a.s, a.e, (a.v, naV)⟩ : KRow (α × β))]
          else (r.filter (fun b => decide (b.s = a.s ∧ b.e = a.e))).map
            (fun b => ⟨a.s, a.e, (a.v, b.v)⟩)).map rowKey) = [rowKey a] := by
      have hlen := filter_key_length_le_one r a.s a.e hr
      cases hfil : r.filter (fun b => decide (b.s = a.s ∧ b.e = a.e)) with
      | nil => simp [rowKey]
      | cons m ms =>
        cases ms with
        | nil => simp [rowKey]
        | cons m2 ms2 =>
          rw [hfil] at hlen
          simp at hlen
    have hstep : leftMerge (a :: l) r naV =
        (if (r.filter (fun b => decide (b.s = a.s ∧ b.e = a.e))).isEmpty
          then [(⟨a.s, a.e, (a.v, naV)⟩ : KRow (α × β))]
          else (r.filter (fun b => decide (b.s = a.s ∧ b.e = a.e))).map
            (fun b => ⟨a.s, a.e, (a.v, b.v)⟩)) ++ leftMerge l r naV := by
      simp [leftMerge]
    rw [hstep, List.map_append, hblock, ih, List.map_cons]
    rfl

theorem leftMerge_mem_no_match {α β : Type} {l : List (KRow α)} {r : List (KRow β)}
    {naV : β} {a : KRow α} (ha : a ∈ l) (hno : rowKey a ∉ r.map rowKey) :
    (⟨a.s, a.e, (a.v, naV)⟩ : KRow (α × β)) ∈ leftMerge l r naV := by
  have hfil : r.filter (fun b => decide (b.s = a.s ∧ b.e = a.e)) = [] := by
    rw [List.filter_eq_nil_iff]
    intro b hb
    simp only [decide_eq_true_eq]
    intro hc
    exact hno (List.mem_map.2 ⟨b, hb, by simp [rowKey, hc.1, hc.2]⟩)
  rw [leftMerge]
  refine List.mem_flatMap.2 ⟨a, ha, ?_⟩
  rw [hfil]
  simp

/-- Counterexample to C4 as stated: the left join fans out when the load
table holds the same interval key twice, so a key present once in the price
table can appear twice in the merged output of `load_raw_data_from_dir`. -/
theorem merged_data_dup_key_fanout :
    ((merged_data [⟨0, 1, Cell.num 10⟩] [⟨0, 1, Cell.num 1⟩, ⟨0, 1, Cell.num 2⟩]
      [] 0).map rowKey).count (0, 1) = 2 := by decide

/-- C4 (amended): provided each normalized table has pairwise-distinct
interval keys (which the normalizers do not themselves enforce for prices
and consumption), every interval key of the price table appears exactly once
in the merged output, regardless of its presence in the load or generation
tables, and a price row whose key is absent from both right tables survives
with its price payload and the missing-value marker in every load and
generation field. -/
theorem merged_data_left_biased_unique (prices cons : List (KRow Cell))
    (prod : List (KRow (List Cell))) (w : Nat)
    (hp : (prices.map rowKey).Nodup) (hc : (cons.map rowKey).Nodup)
    (hg : (prod.map rowKey).Nodup) :
    (∀ k ∈ prices.map rowKey,
      ((merged_data prices cons prod w).map rowKey).count k = 1) ∧
    (∀ p ∈ prices, rowKey p ∉ cons.map rowKey → rowKey p ∉ prod.map rowKey →
      (⟨p.s, p.e, ((p.v, Cell.na), List.replicate w Cell.na)⟩ :
        KRow ((Cell × Cell) × List Cell)) ∈ merged_data prices cons prod w) := by
  have hkeys : (merged_data prices cons prod w).map rowKey = prices.map rowKey := by
    rw [merged_data, leftMerge_keys _ _ _ hg, leftMerge_keys _ _ _ hc]
  constructor
  · intro k hk
    rw [hkeys, count_key_bridge]
    exact List.count_eq_one_of_mem hp hk
  · intro p hpmem hnc hng
    have h1 : (⟨p.s, p.e, (p.v, Cell.na)⟩ : KRow (Cell × Cell)) ∈
        leftMerge prices cons Cell.na :=
      leftMerge_mem_no_match hpmem hnc
    exact leftMerge_mem_no_match h1 (by simpa [rowKey] using hng)

/-- Witness: a price row whose key is in neither right table appears exactly
once and is filled with missing-value markers. -/
theorem merged_data_left_biased_unique_witness :
    ((merged_data [⟨0, 1, Cell.num 10⟩] [⟨5, 6, Cell.num 1⟩]
      [⟨7, 8, [Cell.num 3]⟩] 1).map rowKey).count (0, 1) = 1 ∧
    (⟨0, 1, ((Cell.num 10, Cell.na), List.replicate 1 Cell.na)⟩ :
      KRow ((Cell × Cell) × List Cell)) ∈
      merged_data [⟨0, 1, Cell.num 10⟩] [⟨5, 6, Cell.num 1⟩] [⟨7, 8, [Cell.num 3]⟩] 1 := by
  have h := merged_data_left_biased_unique [⟨0, 1, Cell.num 10⟩] [⟨5, 6, Cell.num 1⟩]
    [⟨7, 8, [Cell.num 3]⟩] 1 (by decide) (by decide) (by decide)
  exact ⟨h.1 (0, 1) (by decide), h.2 ⟨0, 1, Cell.num 10⟩ (by decide) (by decide) (by decide)⟩

theorem cellRel_replace (c : Cell) : cellRel c (replace_cell c) := by
  unfold cellRel replace_cell
  split
  · exact Or.inl ⟨by assumption, rfl⟩
  · exact Or.inr ⟨by assumption, rfl⟩

/-- C5: after all merges, the single global replacement pass turns exactly
the cells holding `"n/e"` or `"-"` into the missing-value marker and leaves
every other cell unchanged; rows are neither dropped nor reordered (the
outputs are related pointwise, row by row and cell by cell, including the
untouched interval keys). -/
theorem load_raw_data_from_dir_sentinel_replacement (prices cons : List (KRow Cell))
    (prod : List (KRow (List Cell))) (w : Nat) :
    List.Forall₂
      (fun (r₁ r₂ : KRow ((Cell × Cell) × List Cell)) =>
        r₂.s = r₁.s ∧ r₂.e = r₁.e ∧
        cellRel r₁.v.1.1 r₂.v.1.1 ∧ cellRel r₁.v.1.2 r₂.v.1.2 ∧
        List.Forall₂ cellRel r₁.v.2 r₂.v.2)
      (merged_data prices cons prod w)
      (load_raw_data_from_dir prices cons prod w) := by
  rw [load_raw_data_from_dir, List.forall₂_map_right_iff, List.forall₂_same]
  intro r _
  refine ⟨rfl, rfl, cellRel_replace _, cellRel_replace _, ?_⟩
  rw [List.forall₂_map_right_iff, List.forall₂_same]
  intro c _
  exact cellRel_replace c

example : parse_timestamp true "01/01/2021 00:00:00" =
    some ⟨2021, 1, 1, 0, 0, 0⟩ := rfl

example : parse_timestamp true "1/01/2021 00:00:00" =
    some ⟨2021, 1, 1, 0, 0, 0⟩ := rfl

example : parse_timestamp true "31/02/2021 00:00:00" = none := rfl

example : parse_timestamp false "01/01/2021 00:00" =
    some ⟨2021, 1, 1, 0, 0, 0⟩ := rfl

example : split_interval "01/01/2021 00:00:00 - 01/01/2021 01:00:00" =
    ["01/01/2021 00:00:00".data, "01/01/2021 01:00:00".data] := rfl

example : toEpochSec ⟨1970, 1, 1, 0, 0, 0⟩ = 0 := rfl

example : toEpochSec ⟨2021, 1, 1, 0, 0, 0⟩ = 1609459200 := rfl

theorem digitChar_isDigit (n : Nat) : (digitChar n).isDigit = true := by
  unfold digitChar
  split <;> decide

theorem digitVal_digitChar (n : Nat) : digitVal (digitChar n) = n % 10 := by
  have h : n % 10 < 10 := Nat.mod_lt _ (by omega)
  unfold digitChar
  split <;> simp_all [digitVal] <;> omega

theorem digitChar_ne_dash (n : Nat) : digitChar n ≠ '-' := by
  intro h
  have := digitChar_isDigit n
  rw [h] at this
  exact absurd this (by decide)

theorem takeDigits_append (ds rest : List Char) (h : ∀ c ∈ ds, c.isDigit = true) :
    takeDigits ds.length (ds ++ rest) = (ds, rest) := by
  induction ds with
  | nil => rfl
  | cons d ds ih =>
    have hd : d.isDigit = true := h d (List.mem_cons_self _ _)
    simp only [List.length_cons, List.cons_append, takeDigits, hd, if_pos]
    have ih2 := ih (fun c hc => h c (List.mem_cons_of_mem _ hc))
    change (d :: (takeDigits ds.length (ds ++ rest)).1,
      (takeDigits ds.length (ds ++ rest)).2) = _
    rw [ih2]

theorem pad2Chars_digits (v : Nat) : ∀ c ∈ pad2Chars v, c.isDigit = true := by
  intro c hc
  simp only [pad2Chars, List.mem_cons, List.not_mem_nil, or_false] at hc
  rcases hc with rfl | rfl <;> exact digitChar_isDigit _

theorem pad4Chars_digits (v : Nat) : ∀ c ∈ pad4Chars v, c.isDigit = true := by
  intro c hc
  simp only [pad4Chars, List.mem_cons, List.not_mem_nil, or_false] at hc
  rcases hc with rfl | rfl | rfl | rfl <;> exact digitChar_isDigit _

theorem digitsToNat_pad2 (v : Nat) (hv : v ≤ 99) : digitsToNat (pad2Chars v) = v := by
  simp only [digitsToNat, pad2Chars, List.foldl_cons, List.foldl_nil,
    digitVal_digitChar]
  omega

theorem digitsToNat_pad4 (v : Nat) (hv : v ≤ 9999) : digitsToNat (pad4Chars v) = v := by
  simp only [digitsToNat, pad4Chars, List.foldl_cons, List.foldl_nil,
    digitVal_digitChar]
  omega

theorem readNum_pad2 (v lo hi : Nat) (hv : v ≤ 99) (hlo : lo ≤ v) (hhi : v ≤ hi)
    (rest : List Char) :
    readNum 1 2 lo hi (pad2Chars v ++ rest) = some (v, rest) := by
  have ht : takeDigits 2 (pad2Chars v ++ rest) = (pad2Chars v, rest) :=
    takeDigits_append (pad2Chars v) rest (pad2Chars_digits v)
  simp only [readNum, ht, digitsToNat_pad2 v hv]
  have hlen : ¬((pad2Chars v).length < 1) := by simp [pad2Chars]
  rw [if_neg hlen, if_pos ⟨hlo, hhi⟩]

theorem readNum_pad4 (v lo hi : Nat) (hv : v ≤ 9999) (hlo : lo ≤ v) (hhi : v ≤ hi)
    (rest : List Char) :
    readNum 4 4 lo hi (pad4Chars v ++ rest) = some (v, rest) := by
  have ht : takeDigits 4 (pad4Chars v ++ rest) = (pad4Chars v, rest) :=
    takeDigits_append (pad4Chars v) rest (pad4Chars_digits v)
  simp only [readNum, ht, digitsToNat_pad4 v hv]
  have hlen : ¬((pad4Chars v).length < 4) := by simp [pad4Chars]
  rw [if_neg hlen, if_pos ⟨hlo, hhi⟩]

theorem expectChar_cons (c : Char) (rest : List Char) :
    expectChar c (c :: rest) = some rest := by
  simp [expectChar]

theorem readNum_pad2_nil (v lo hi : Nat) (hv : v ≤ 99) (hlo : lo ≤ v)
    (hhi : v ≤ hi) : readNum 1 2 lo hi (pad2Chars v) = some (v, []) := by
  have h := readNum_pad2 v lo hi hv hlo hhi []
  simpa using h

theorem parse_fields_format (ws : Bool) (dt : PDateTime)
    (hy : 1 ≤ dt.year ∧ dt.year ≤ 9999) (hm : 1 ≤ dt.month ∧ dt.month ≤ 12)
    (hd : 1 ≤ dt.day ∧ dt.day ≤ 31) (hh : dt.hour ≤ 23)
    (hmi : dt.minute ≤ 59) (hs : dt.second ≤ 59) :
    parse_timestamp_fields ws (format_timestamp_chars ws dt) =
      some ⟨dt.year, dt.month, dt.day, dt.hour, dt.minute,
        if ws then dt.second else 0⟩ := by
  cases ws with
  | true =>
    simp only [format_timestamp_chars, if_true, parse_timestamp_fields,
      readNum_pad2 dt.day 1 31 (by omega) (by omega) (by omega),
      expectChar_cons,
      readNum_pad2 dt.month 1 12 (by omega) (by omega) (by omega),
      readNum_pad4 dt.year 1 9999 (by omega) (by omega) (by omega),
      readNum_pad2 dt.hour 0 23 (by omega) (by omega) (by omega),
      readNum_pad2 dt.minute 0 59 (by omega) (by omega) (by omega),
      readNum_pad2_nil dt.second 0 59 (by omega) (by omega) (by omega),
      List.isEmpty_nil, List.cons_append, List.append_assoc]
  | false =>
    simp only [format_timestamp_chars, Bool.false_eq_true, if_false, if_true,
      List.append_nil,
      parse_timestamp_fields,
      readNum_pad2 dt.day 1 31 (by omega) (by omega) (by omega),
      expectChar_cons,
      readNum_pad2 dt.month 1 12 (by omega) (by omega) (by omega),
      readNum_pad4 dt.year 1 9999 (by omega) (by omega) (by omega),
      readNum_pad2 dt.hour 0 23 (by omega) (by omega) (by omega),
      readNum_pad2_nil dt.minute 0 59 (by omega) (by omega) (by omega),
      List.isEmpty_nil, List.cons_append, List.append_assoc]

theorem splitOnSepFuel_no_dash (fuel : Nat) :
    ∀ (cs acc : List Char), cs.length ≤ fuel → (∀ c ∈ cs, c ≠ '-') →
    splitOnSepFuel fuel cs acc = [acc.reverse ++ cs] := by
  induction fuel with
  | zero =>
    intro cs acc hl h
    cases cs with
    | nil => simp [splitOnSepFuel]
    | cons c rest => simp at hl
  | succ fuel ih =>
    intro cs acc hl h
    cases cs with
    | nil => simp [splitOnSepFuel]
    | cons c rest =>
      have hcond : ¬(c = ' ' ∧ rest.take 2 = ['-', ' ']) := by
        rintro ⟨-, h2⟩
        have hm : '-' ∈ rest.take 2 := by
          rw [h2]
          exact List.mem_cons_self _ _
        exact h '-' (List.mem_cons_of_mem _ (List.take_subset _ _ hm)) rfl
      rw [splitOnSepFuel, if_neg hcond]
      rw [ih rest (c :: acc) (by simp only [List.length_cons] at hl; omega)
        (fun x hx => h x (List.mem_cons_of_mem _ hx))]
      simp

theorem splitOnSepFuel_boundary :
    ∀ (A B acc : List Char) (fuel : Nat),
    (A ++ ' ' :: '-' :: ' ' :: B).length ≤ fuel →
    (∀ c ∈ A, c ≠ '-') → (∀ c ∈ B, c ≠ '-') →
    splitOnSepFuel fuel (A ++ ' ' :: '-' :: ' ' :: B) acc =
      [acc.reverse ++ A, B] := by
  intro A
  induction A with
  | nil =>
    intro B acc fuel hl hA hB
    cases fuel with
    | zero => simp at hl
    | succ fuel =>
      show splitOnSepFuel (fuel + 1) (' ' :: '-' :: ' ' :: B) acc = _
      rw [splitOnSepFuel, if_pos ⟨rfl, rfl⟩]
      have hBlen : B.length ≤ fuel := by
        simp only [List.nil_append, List.length_cons] at hl
        omega
      rw [show ('-' :: ' ' :: B).drop 2 = B from rfl,
        splitOnSepFuel_no_dash fuel B [] hBlen hB]
      simp
  | cons a A ih =>
    intro B acc fuel hl hA hB
    cases fuel with
    | zero => simp at hl
    | succ fuel =>
      have hcond : ¬(a = ' ' ∧ (A ++ ' ' :: '-' :: ' ' :: B).take 2 = ['-', ' ']) := by
        rintro ⟨rfl, h2⟩
        cases A with
        | nil => simp [List.take] at h2
        | cons x A2 =>
          have hx : x = '-' := by
            simp only [List.cons_append, List.take, List.cons.injEq] at h2
            exact h2.1
          exact hA x (List.mem_cons_of_mem _ (hx ▸ List.mem_cons_self _ _)) hx
      show splitOnSepFuel (fuel + 1) (a :: (A ++ ' ' :: '-' :: ' ' :: B)) acc = _
      rw [splitOnSepFuel, if_neg hcond]
      rw [ih B (a :: acc) fuel
        (by simp only [List.cons_append, List.length_cons, List.length_append] at hl ⊢; omega)
        (fun x hx => hA x (List.mem_cons_of_mem _ hx)) hB]
      simp

theorem format_chars_no_dash (ws : Bool) (dt : PDateTime) :
    ∀ c ∈ format_timestamp_chars ws dt, c ≠ '-' := by
  intro c hc
  unfold format_timestamp_chars at hc
  cases ws <;>
    simp only [if_true, if_false, Bool.false_eq_true, pad2Chars, pad4Chars,
      List.append_nil, List.cons_append, List.append_assoc, List.mem_append,
      List.mem_cons, List.not_mem_nil, or_false, false_or] at hc <;>
    casesm* _ ∨ _ <;> subst_vars <;>
    first
      | exact digitChar_ne_dash _
      | decide

theorem daysInMonth_le_31 (y m : Nat) : daysInMonth y m ≤ 31 := by
  unfold daysInMonth
  split
  · split <;> omega
  · split <;> omega

theorem parse_core_format (ws : Bool) (dt : PDateTime)
    (hv : valid_timestamp dt = true) (hsec : ws = false → dt.second = 0) :
    parse_timestamp_core ws (format_timestamp_chars ws dt) = some dt := by
  have hv2 := hv
  unfold valid_timestamp at hv2
  simp only [Bool.and_eq_true, decide_eq_true_eq] at hv2
  obtain ⟨⟨hy1, hy2, hm1, hm2, hd1, hd2, hh, hmi, hs⟩, -⟩ := hv2
  have hd31 : dt.day ≤ 31 := le_trans hd2 (daysInMonth_le_31 _ _)
  rw [parse_timestamp_core,
    parse_fields_format ws dt ⟨hy1, hy2⟩ ⟨hm1, hm2⟩ ⟨hd1, hd31⟩ hh hmi hs]
  cases ws with
  | true => simp [hv]
  | false =>
    have h0 : dt.second = 0 := hsec rfl
    simp only [Bool.false_eq_true, if_false]
    rw [show (⟨dt.year, dt.month, dt.day, dt.hour, dt.minute, 0⟩ : PDateTime) = dt by
      rw [← h0]]
    simp [hv]

/-- Counterexample to C6 as stated: strptime accepts a non-zero-padded day
(`"1/01/2021 ..."` is well-formed for `%d/%m/%Y %H:%M:%S`), but formatting
the parsed timestamps back produces the zero-padded rendering, which differs
from the original string. -/
theorem parse_interval_roundtrip_fails_unpadded :
    (parse_interval true "1/01/2021 00:00:00 - 01/01/2021 01:00:00").isSome = true ∧
    (parse_interval true "1/01/2021 00:00:00 - 01/01/2021 01:00:00").map
      (format_interval true) ≠
      some "1/01/2021 00:00:00 - 01/01/2021 01:00:00" := by
  constructor
  · rfl
  · decide

/-- C6 (amended): the character-for-character round trip holds exactly on
canonically rendered interval strings: for any two timestamps valid for the
source format (seconds zero when the format has no seconds field), parsing
the formatted interval string returns the same pair of timestamps, and
formatting that parse result reproduces the string character for character.
On a well-formed but non-zero-padded input the round trip changes the string
(see `parse_interval_roundtrip_fails_unpadded`). -/
theorem format_interval_parse_roundtrip (ws : Bool) (d1 d2 : PDateTime)
    (h1 : valid_timestamp d1 = true) (h2 : valid_timestamp d2 = true)
    (hs1 : ws = false → d1.second = 0) (hs2 : ws = false → d2.second = 0) :
    parse_interval ws (format_interval ws (d1, d2)) = some (d1, d2) ∧
    (parse_interval ws (format_interval ws (d1, d2))).map (format_interval ws) =
      some (format_interval ws (d1, d2)) := by
  have hsplit : split_interval (format_interval ws (d1, d2)) =
      [format_timestamp_chars ws d1, format_timestamp_chars ws d2] := by
    have hdata : (format_interval ws (d1, d2)).data =
        format_timestamp_chars ws d1 ++ ' ' :: '-' :: ' ' ::
          format_timestamp_chars ws d2 := by
      simp [format_interval, sepChars]
    rw [split_interval, hdata]
    rw [splitOnSepFuel_boundary _ _ _ _ le_rfl (format_chars_no_dash ws d1)
      (format_chars_no_dash ws d2)]
    simp
  have hmain : parse_interval ws (format_interval ws (d1, d2)) = some (d1, d2) := by
    rw [parse_interval, hsplit]
    show (match parse_timestamp_core ws (format_timestamp_chars ws d1),
        parse_timestamp_core ws (format_timestamp_chars ws d2) with
      | some x, some y => some (x, y)
      | _, _ => none) = some (d1, d2)
    rw [parse_core_format ws d1 h1 hs1, parse_core_format ws d2 h2 hs2]
  exact ⟨hmain, by rw [hmain]; rfl⟩

/-- Witness: the round trip at the concrete canonical interval string
`"01/01/2021 00:00:00 - 01/01/2021 01:00:00"`. -/
theorem format_interval_parse_roundtrip_witness :
    parse_interval true (format_interval true
      (⟨2021, 1, 1, 0, 0, 0⟩, ⟨2021, 1, 1, 1, 0, 0⟩)) =
      some (⟨2021, 1, 1, 0, 0, 0⟩, ⟨2021, 1, 1, 1, 0, 0⟩) ∧
    (parse_interval true (format_interval true
      (⟨2021, 1, 1, 0, 0, 0⟩, ⟨2021, 1, 1, 1, 0, 0⟩))).map (format_interval true) =
      some (format_interval true (⟨2021, 1, 1, 0, 0, 0⟩, ⟨2021, 1, 1, 1, 0, 0⟩)) :=
  format_interval_parse_roundtrip true ⟨2021, 1, 1, 0, 0, 0⟩ ⟨2021, 1, 1, 1, 0, 0⟩
    (by decide) (by decide) (fun h => Bool.noConfusion h) (fun h => Bool.noConfusion h)

/-- C9: if the allow-list-filtered production table holds two rows, at
distinct positions, with the same `(start, end, production_type)` key, the
pivot raises rather than aggregating or keeping one of them; and whenever it
returns, every key of the filtered table occurs in it exactly once, so each
`(interval, production_type)` pair contributed exactly one value. -/
theorem load_raw_production_duplicate_key (rows : List ProdRow) :
    (∀ (i j : Fin ((rows.filter (fun r => renewable_types.contains r.ptype)).map
        prodKey).length),
      i ≠ j →
      ((rows.filter (fun r => renewable_types.contains r.ptype)).map prodKey).get i =
        ((rows.filter (fun r => renewable_types.contains r.ptype)).map prodKey).get j →
      load_raw_production rows =
        Except.error "ValueError: Index contains duplicate entries, cannot reshape") ∧
    (∀ out, load_raw_production rows = Except.ok out →
      ∀ k ∈ (rows.filter (fun r => renewable_types.contains r.ptype)).map prodKey,
        (((rows.filter (fun r => renewable_types.contains r.ptype)).map
          prodKey).filter (fun x => decide (x = k))).length = 1) := by
  constructor
  · intro i j hij heq
    have hnd : ¬(((rows.filter (fun r => renewable_types.contains r.ptype)).map
        prodKey).Nodup) := by
      intro hnd
      exact hij (List.nodup_iff_injective_get.1 hnd heq)
    simp only [load_raw_production]
    rw [if_neg hnd]
  · intro out hout k hk
    by_cases hnd : ((rows.filter (fun r => renewable_types.contains r.ptype)).map
        prodKey).Nodup
    · have h1 : @List.count _ instBEqOfDecidableEq k
          ((rows.filter (fun r => renewable_types.contains r.ptype)).map prodKey)
          = 1 :=
        List.count_eq_one_of_mem hnd hk
      rw [← List.countP_eq_length_filter]
      exact h1
    · exfalso
      simp only [load_raw_production] at hout
      rw [if_neg hnd] at hout
      exact Except.noConfusion hout

/-- Witness: a duplicated `(interval, Solar)` key makes the pivot raise, and
on a duplicate-free table each key occurs once. -/
theorem load_raw_production_duplicate_key_witness :
    load_raw_production [⟨0, 1, "Solar", Cell.num 5⟩, ⟨0, 1, "Solar", Cell.num 7⟩] =
      Except.error "ValueError: Index contains duplicate entries, cannot reshape" ∧
    (((([⟨0, 1, "Solar", Cell.num 5⟩, ⟨0, 1, "Wind Onshore", Cell.num 7⟩] :
        List ProdRow).filter (fun r => renewable_types.contains r.ptype)).map
        prodKey).filter (fun x => decide (x = (0, 1, "Solar")))).length = 1 := by
  constructor
  · exact (load_raw_production_duplicate_key
      [⟨0, 1, "Solar", Cell.num 5⟩, ⟨0, 1, "Solar", Cell.num 7⟩]).1
      ⟨0, by decide⟩ ⟨1, by decide⟩ (by decide) (by decide)
  · exact (load_raw_production_duplicate_key
      [⟨0, 1, "Solar", Cell.num 5⟩, ⟨0, 1, "Wind Onshore", Cell.num 7⟩]).2
      _ rfl (0, 1, "Solar") (by decide)

/-- C10: for an existing directory holding no file with the requested
extension, `read_from_dir_as_df` raises the empty-concatenation `ValueError`
instead of returning an empty table -- for every requested format, including
unsupported ones; the explicit unsupported-format rejection only fires when
at least one file with that extension is present. -/
theorem read_from_dir_as_df_empty_match (listing : List String)
    (file_format : String) (readCsv readXlsx : String → List (List Cell)) :
    (listing.filter (fun fn => file_format.data.isSuffixOf fn.data) = [] →
      read_from_dir_as_df true listing file_format readCsv readXlsx =
        Except.error "ValueError: No objects to concatenate") ∧
    (listing.filter (fun fn => file_format.data.isSuffixOf fn.data) ≠ [] →
      file_format ≠ ".csv" → file_format ≠ ".xlsx" →
      read_from_dir_as_df true listing file_format readCsv readXlsx =
        Except.error ("ValueError: Unsupported file format: " ++ file_format)) := by
  constructor
  · intro h
    simp only [read_from_dir_as_df, Bool.not_true, Bool.false_eq_true, if_false, h,
      List.mapM_nil]
    rfl
  · intro h hc hx
    obtain ⟨f, fs, hf⟩ := List.exists_cons_of_ne_nil h
    simp only [read_from_dir_as_df, Bool.not_true, Bool.false_eq_true, if_false, hf,
      List.mapM_cons, if_neg hc, if_neg hx]
    rfl

/-- Witness: a directory with no `.csv` file yields the concatenation error;
a directory with a `.json` file requested as `.json` yields the
unsupported-format error. -/
theorem read_from_dir_as_df_empty_match_witness :
    read_from_dir_as_df true ["a.txt"] ".csv" (fun _ => []) (fun _ => []) =
      Except.error "ValueError: No objects to concatenate" ∧
    read_from_dir_as_df true ["a.json"] ".json" (fun _ => []) (fun _ => []) =
      Except.error ("ValueError: Unsupported file format: " ++ ".json") :=
  ⟨(read_from_dir_as_df_empty_match ["a.txt"] ".csv" _ _).1 (by decide),
    (read_from_dir_as_df_empty_match ["a.json"] ".json" _ _).2 (by decide)
      (by decide) (by decide)⟩

theorem parse_column_snd {β : Type} :
    ∀ (df df2 : List (Cell × β)), parse_column df = some df2 →
    df2.map Prod.snd = df.map Prod.snd := by
  intro df
  induction df with
  | nil =>
    intro df2 h
    simp only [parse_column, Option.some.injEq] at h
    rw [← h]
  | cons rc rest ih =>
    intro df2 h
    simp only [parse_column] at h
    cases hc : parse_datetime_flexible rc.1 with
    | none => rw [hc] at h; exact Option.noConfusion h
    | some c =>
      rw [hc] at h
      cases hr : parse_column rest with
      | none => rw [hr] at h; exact Option.noConfusion h
      | some rest2 =>
        rw [hr] at h
        simp only [Option.some.injEq] at h
        rw [← h]
        simp [ih rest2 hr]

theorem parse_column_of_instants {β : Type} :
    ∀ df : List (Cell × β), (∀ rc ∈ df, ∃ t : Int, rc.1 = Cell.ts t) →
    parse_column df = some df := by
  intro df
  induction df with
  | nil => intro _; rfl
  | cons rc rest ih =>
    intro h
    obtain ⟨t, ht⟩ := h rc (List.mem_cons_self _ _)
    simp only [parse_column, ht, parse_datetime_flexible,
      ih (fun x hx => h x (List.mem_cons_of_mem _ hx))]
    rw [show (Cell.ts t, rc.2) = rc from by rw [← ht]]

/-- Counterexample to C8 as stated: gap detection is not pure in its input
table; line 14 re-assigns the parsed timestamp column into the caller's
frame, so a table holding timestamp strings is visibly different after the
call. -/
theorem contains_datetime_gaps_df_mutates :
    (contains_datetime_gaps_df [(Cell.str "2021-01-01 00:00:00", (0 : Nat))]
      3600).2 ≠ [(Cell.str "2021-01-01 00:00:00", (0 : Nat))] := by decide

/-- C8 (amended): the call leaves the row order and every non-timestamp
field of the caller's table unchanged, and a table whose timestamp column
already holds parsed instants is unchanged entirely; but in general the
timestamp column is overwritten in place with its parsed UTC values (see
`contains_datetime_gaps_df_mutates`). -/
theorem contains_datetime_gaps_df_frame {β : Type} (df : List (Cell × β))
    (freq : Int) :
    ((contains_datetime_gaps_df df freq).2.map Prod.snd = df.map Prod.snd) ∧
    ((∀ rc ∈ df, ∃ t : Int, rc.1 = Cell.ts t) →
      (contains_datetime_gaps_df df freq).2 = df) := by
  constructor
  · cases hp : parse_column df with
    | none => simp [contains_datetime_gaps_df, hp]
    | some df2 =>
      simp only [contains_datetime_gaps_df, hp]
      exact parse_column_snd df df2 hp
  · intro h
    have hid := parse_column_of_instants df h
    simp [contains_datetime_gaps_df, hid]

/-- Witness: a two-row table of already-parsed instants with payloads
`7, 8` keeps its payload column and is unchanged by the call. -/
theorem contains_datetime_gaps_df_frame_witness :
    ((contains_datetime_gaps_df [(Cell.ts 0, (7 : Nat)), (Cell.ts 3600, 8)]
      3600).2.map Prod.snd = [7, 8]) ∧
    ((contains_datetime_gaps_df [(Cell.ts 0, (7 : Nat)), (Cell.ts 3600, 8)]
      3600).2 = [(Cell.ts 0, 7), (Cell.ts 3600, 8)]) := by
  have h := contains_datetime_gaps_df_frame
    [(Cell.ts 0, (7 : Nat)), (Cell.ts 3600, 8)] 3600
  refine ⟨h.1, h.2 ?_⟩
  intro rc hrc
  rcases List.mem_cons.1 hrc with rfl | hrc2
  · exact ⟨0, rfl⟩
  · rcases List.mem_cons.1 hrc2 with rfl | h3
    · exact ⟨3600, rfl⟩
    · cases h3
